/-
Verification of the mobility-simulator specification against the source.

Each section embeds one part of the Python source
(minigonche/synthetic_mobility_data_generator) as Lean definitions:
pure functions become Lean functions, machine floats are modelled by ℝ
(exact reals) or ℚ where the source only uses field arithmetic, datetimes
are modelled as integer epoch seconds, and fallible code returns Option.
The theorems at the end settle the claims C1..C10.
-/
import Mathlib

open Real

/-! ## `simulator/utils/general.py` : `binary_search`

The Python loop
```
low, high, closest_index = 0, len(array)-1, -1
while low <= high:
    mid = (low + high) // 2
    if array[mid] <= search_val: closest_index = mid; low = mid + 1
    else: high = mid - 1
return closest_index
```
is embedded with `Int.fdiv` for Python's floor division `//`. -/

def bsAux (arr : List ℤ) (v : ℤ) (low high ci : ℤ) : ℤ :=
  if h : low ≤ high then
    let mid := Int.fdiv (low + high) 2
    if arr.getD mid.toNat 0 ≤ v then bsAux arr v (mid + 1) high mid
    else bsAux arr v low (mid - 1) ci
  else ci
termination_by (high + 1 - low).toNat
decreasing_by
  · have h2 : (0:ℤ) ≤ 2 := by norm_num
    have hm : Int.fdiv (low + high) 2 = (low + high) / 2 := Int.fdiv_eq_ediv _ h2
    simp only [hm] at *
    omega
  · have h2 : (0:ℤ) ≤ 2 := by norm_num
    have hm : Int.fdiv (low + high) 2 = (low + high) / 2 := Int.fdiv_eq_ediv _ h2
    simp only [hm] at *
    omega

def binary_search (search_val : ℤ) (array : List ℤ) : ℤ :=
  if array.length = 0 then -1
  else bsAux array search_val 0 ((array.length : ℤ) - 1) (-1)

/-- Sorted lists have monotone `getD` on in-range indices. -/
lemma sorted_getD_mono {arr : List ℤ} (hs : arr.Sorted (· ≤ ·)) {i j : ℕ}
    (hij : i ≤ j) (hj : j < arr.length) :
    arr.getD i 0 ≤ arr.getD j 0 := by
  rcases eq_or_lt_of_le hij with rfl | hlt
  · exact le_refl _
  · have hi : i < arr.length := lt_trans hlt hj
    rw [List.getD_eq_getElem _ _ hi, List.getD_eq_getElem _ _ hj]
    exact List.Sorted.rel_get_of_lt hs hlt

/-- Correctness of the binary-search loop, by induction on an iteration bound. -/
lemma bsAux_correct (arr : List ℤ) (v : ℤ) (hs : arr.Sorted (· ≤ ·)) :
    ∀ (n : ℕ) (low high ci : ℤ),
      (high + 1 - low).toNat ≤ n →
      0 ≤ low → high < (arr.length : ℤ) →
      (∀ j : ℕ, j < arr.length → high < (j : ℤ) → v < arr.getD j 0) →
      (ci = -1 → low = 0) →
      (ci ≠ -1 → 0 ≤ ci ∧ ci + 1 = low ∧ ci < (arr.length : ℤ) ∧
        arr.getD ci.toNat 0 ≤ v) →
      (bsAux arr v low high ci = -1 ∧ ∀ j : ℕ, j < arr.length → v < arr.getD j 0) ∨
      (∃ i : ℕ, bsAux arr v low high ci = (i : ℤ) ∧ i < arr.length ∧
        arr.getD i 0 ≤ v ∧ ∀ j : ℕ, j < arr.length → i < j → v < arr.getD j 0) := by
  intro n
  induction n with
  | zero =>
    intro low high ci hn hlow hhigh hright hcineg hcipos
    have hlh : ¬ low ≤ high := by omega
    rw [bsAux, dif_neg hlh]
    by_cases hci : ci = -1
    · left
      refine ⟨hci, fun j hj => ?_⟩
      have hlow0 : low = 0 := hcineg hci
      exact hright j hj (by omega)
    · right
      obtain ⟨h0, h1, h2, h3⟩ := hcipos hci
      refine ⟨ci.toNat, by omega, by omega, h3, fun j hj hij => ?_⟩
      exact hright j hj (by omega)
  | succ n ih =>
    intro low high ci hn hlow hhigh hright hcineg hcipos
    by_cases hlh : low ≤ high
    · rw [bsAux, dif_pos hlh]
      have h2 : (0:ℤ) ≤ 2 := by norm_num
      have hmid : Int.fdiv (low + high) 2 = (low + high) / 2 := Int.fdiv_eq_ediv _ h2
      have hmlow : low ≤ Int.fdiv (low + high) 2 := by rw [hmid]; omega
      have hmhigh : Int.fdiv (low + high) 2 ≤ high := by rw [hmid]; omega
      have hmnn : 0 ≤ Int.fdiv (low + high) 2 := le_trans hlow hmlow
      by_cases hle : arr.getD (Int.fdiv (low + high) 2).toNat 0 ≤ v
      · rw [if_pos hle]
        refine ih (Int.fdiv (low + high) 2 + 1) high (Int.fdiv (low + high) 2)
          (by omega) (by omega) hhigh hright
          (by omega) (fun _ => ⟨hmnn, by ring, by omega, hle⟩)
      · rw [if_neg hle]
        refine ih low (Int.fdiv (low + high) 2 - 1) ci (by omega) hlow (by omega)
          (fun j hj hjm => ?_) hcineg hcipos
        by_cases hjh : high < (j : ℤ)
        · exact hright j hj hjh
        · have hmj : (Int.fdiv (low + high) 2).toNat ≤ j := by omega
          have := sorted_getD_mono hs hmj hj
          omega
    · rw [bsAux, dif_neg hlh]
      by_cases hci : ci = -1
      · left
        refine ⟨hci, fun j hj => ?_⟩
        have hlow0 : low = 0 := hcineg hci
        exact hright j hj (by omega)
      · right
        obtain ⟨h0, h1, h2, h3⟩ := hcipos hci
        refine ⟨ci.toNat, by omega, by omega, h3, fun j hj hij => ?_⟩
        exact hright j hj (by omega)

/-- Characterization of `binary_search` on a non-decreasing list : it either
reports `-1` with every element strictly greater than the key, or the largest
index whose element is `≤` the key. -/
lemma binary_search_correct (v : ℤ) (arr : List ℤ) (hs : arr.Sorted (· ≤ ·)) :
    (binary_search v arr = -1 ∧ ∀ j : ℕ, j < arr.length → v < arr.getD j 0) ∨
    (∃ i : ℕ, binary_search v arr = (i : ℤ) ∧ i < arr.length ∧
      arr.getD i 0 ≤ v ∧ ∀ j : ℕ, j < arr.length → i < j → v < arr.getD j 0) := by
  by_cases hlen : arr.length = 0
  · left
    constructor
    · simp [binary_search, hlen]
    · intro j hj; omega
  · have : binary_search v arr = bsAux arr v 0 ((arr.length : ℤ) - 1) (-1) := by
      simp [binary_search, hlen]
    rw [this]
    exact bsAux_correct arr v hs ((arr.length : ℤ) - 1 + 1 - 0).toNat 0
      ((arr.length : ℤ) - 1) (-1) (le_refl _) (le_refl _) (by omega)
      (fun j hj hcon => absurd hcon (by omega)) (fun _ => rfl)
      (fun hcon => absurd rfl hcon)

/-! ## Timeline query (`get_function_by_date`)

`PanamaDrill.simulate` calls `disaster.get_function_by_date(current_date)`
once per tick, but no definition of that method exists anywhere under the
source tree (the abstract `Disaster` class does not declare it either). -/

/-- Modelled from the spec: `get_function_by_date` is invoked by
`PanamaDrill.simulate` (line 149) but its definition is missing from the
source; the spec (§3 Timeline, §4.6 `field_at`) says a query for time `t`
returns the field whose timestamp is the greatest timestamp `≤ t`, or none
if `t` precedes the first entry.  We model it with the repository's own
`binary_search` over the timeline, which returns exactly that index
(or `-1`, mapped to `none`).  Timestamps are epoch seconds (`ℤ`). -/
def get_function_by_date {α : Type} (timeline : List ℤ) (funs : List α)
    (t : ℤ) : Option α :=
  let idx := binary_search t timeline
  if idx = -1 then none else funs.get? idx.toNat

/-! ## `simulator/disasters/generic/earthquake.py` : `Earthquake.generate_disaster`

Datetimes are epoch seconds; `np.round` (half-to-even) on the rational
`seconds / step` is embedded by `npRound`.  A disaster function is either a
Gaussian (`NormalDisasterFun`) or a uniform disk (`UniformDisasterFun`);
Python lists may also hold `None` (the `continuity_fun` default), so the
generated list holds `Option DisasterFunction`. -/

/-- `np.round` : round half to even (banker's rounding). -/
def npRound (q : ℚ) : ℤ :=
  let f : ℚ := q - ⌊q⌋
  if f < 1/2 then ⌊q⌋
  else if 1/2 < f then ⌊q⌋ + 1
  else if 2 ∣ ⌊q⌋ then ⌊q⌋ else ⌊q⌋ + 1

/-- A disaster field: `NormalDisasterFun(mean, variance, amplitude)` or
`UniformDisasterFun(mean, radius_km, amplitude)`. -/
inductive DisasterFunction : Type where
  | normal (mean : ℝ × ℝ) (variance : ℝ × ℝ) (amplitude : ℝ)
  | uniform (mean : ℝ × ℝ) (radius_km : ℝ) (amplitude : ℝ)

/-- Amplitude parameter of a disaster function. -/
def DisasterFunction.amplitude : DisasterFunction → ℝ
  | .normal _ _ a => a
  | .uniform _ _ a => a

/-- The loop body of `generate_disaster` (source lines 171-187): iteration
index `idx` is Python's `step`, `tPrev` the last appended timestamp, `A`
the running amplitude (updated only when a decay-method branch matches). -/
noncomputable def genIter (epicenter vxy : ℝ × ℝ) (A0 : ℝ) (method : String)
    (steps : ℤ) (tstep endDate : ℤ) (hasCont : Bool)
    (contFun : Option DisasterFunction) :
    ℕ → ℕ → ℤ → ℝ → List ℤ × List (Option DisasterFunction)
  | 0, _, _, _ => ([], [])
  | r + 1, idx, tPrev, A =>
    let t := tPrev + tstep
    if hasCont ∧ endDate < t then
      let rest := genIter epicenter vxy A0 method steps tstep endDate hasCont
        contFun r (idx + 1) t A
      (t :: rest.1, contFun :: rest.2)
    else
      let A' : ℝ :=
        if method = "linear" then (-A0 / (steps : ℝ)) * (idx : ℝ) + A0
        else if method = "exponetial" then A0 * Real.exp (-(idx : ℝ))
        else if method = "parabolic" then
          (A0 / (steps : ℝ) ^ 2) * (-(idx : ℝ) ^ 2) + A0
        else A
      let rest := genIter epicenter vxy A0 method steps tstep endDate hasCont
        contFun r (idx + 1) t A'
      (t :: rest.1, some (.normal epicenter vxy A') :: rest.2)

/-- `Earthquake.generate_disaster` (source lines 118-191).  Returns `none`
when an `assert` fails, otherwise the pair
`(disaster_timeline, disaster_functions)`. -/
noncomputable def generate_disaster (epicenter vxy : ℝ × ℝ) (A0 : ℝ)
    (method stepUnit : String) (startDate endDate : ℤ)
    (continuity : Option ℤ) (continuityFun : Option DisasterFunction)
    (dFuns : Option (List (Option DisasterFunction)))
    (dTimeline : Option (List ℤ)) :
    Option (List ℤ × List (Option DisasterFunction)) :=
  if ¬ (method = "linear" ∨ method = "exponential" ∨ method = "parabolic") then
    none
  else if ¬ (stepUnit = "hr" ∨ stepUnit = "day") then none
  else
    let tstep : ℤ := if stepUnit = "day" then 86400 else 3600
    let target : ℤ := match continuity with | some c => c | none => endDate
    let steps : ℤ := npRound (((target - startDate : ℤ) : ℚ) / ((tstep : ℤ) : ℚ))
    -- `if self.__disaster_functions or self.__disaster_timeline:` (truthiness)
    if (dFuns.getD []).isEmpty = false ∨ (dTimeline.getD []).isEmpty = false then
      match dFuns, dTimeline with
      | some fs, some ts => if fs.length = ts.length then some (ts, fs) else none
      | _, _ => none
    else
      let body := genIter epicenter vxy A0 method steps tstep endDate
        continuity.isSome continuityFun steps.toNat 0 startDate A0
      some (startDate :: body.1, some (.normal epicenter vxy A0) :: body.2)

/-! ## `simulator/utils/geometric.py` : `haversine`

`haversine(lon1, lat1, lon2, lat2, radians=False)` converts its arguments
from degrees to radians unless `radians` is set, and returns
`2 * asin(sqrt(a)) * 6371 * 1000` (metres, despite the comment). -/

/-- `np.radians` / `math.radians` : degrees to radians. -/
noncomputable def radiansFn (x : ℝ) : ℝ := x * π / 180

/-- `geo_fun.haversine` (source lines 58-74). -/
noncomputable def haversine (lon1 lat1 lon2 lat2 : ℝ) (rads : Bool) : ℝ :=
  let lon1' := if rads then lon1 else radiansFn lon1
  let lat1' := if rads then lat1 else radiansFn lat1
  let lon2' := if rads then lon2 else radiansFn lon2
  let lat2' := if rads then lat2 else radiansFn lat2
  let dlon := lon2' - lon1'
  let dlat := lat2' - lat1'
  let a := Real.sin (dlat / 2) ^ 2 +
    Real.cos lat1' * Real.cos lat2' * Real.sin (dlon / 2) ^ 2
  let c := 2 * Real.arcsin (Real.sqrt a)
  c * (6371 * 1000)

/-- The Haversine distance in kilometres between two `(lat, lon)` points in
degrees, following the spec's words (§4.1 formula, compared against
`radius_km` in §4.6): this is the spec-side definition used to check the
uniform-disk field, not a copy of the source. -/
noncomputable def haversineKmSpec (p q : ℝ × ℝ) : ℝ :=
  let phi1 := radiansFn p.1
  let phi2 := radiansFn q.1
  let dphi := radiansFn (q.1 - p.1)
  let dlam := radiansFn (q.2 - p.2)
  let a := Real.sin (dphi / 2) ^ 2 +
    Real.cos phi1 * Real.cos phi2 * Real.sin (dlam / 2) ^ 2
  2 * Real.arcsin (Real.sqrt a) * 6371

/-! ## `numpy`-style pieces used by the disaster fields : `arctan2`, `%` -/

/-- `np.arctan2 a b` : the angle of the point `(b, a)`, in `(-π, π]`, with
`arctan2 0 0 = 0`. -/
noncomputable def arctan2 (a b : ℝ) : ℝ :=
  if 0 < b then Real.arctan (a / b)
  else if b < 0 then
    (if 0 ≤ a then Real.arctan (a / b) + π else Real.arctan (a / b) - π)
  else if 0 < a then π / 2
  else if a < 0 then -(π / 2)
  else 0

/-- Python / `numpy` float `%` for a positive modulus: `a - b * ⌊a / b⌋`. -/
noncomputable def npFmod (a b : ℝ) : ℝ := a - b * ⌊a / b⌋

/-! ## `UniformDisasterFun` and `NormalDisasterFun` : `__bearing`, `__density`,
`intensity` (`uniform_disaster_dist.py` lines 59-87 and 116-136;
`normal_disaster_dist.py` has the identical `__bearing`). -/

/-- `__bearing(poi)` : forward azimuth from the field's `mean` to `poi`
(both `(lat, lon)` in degrees), `(theta*180/np.pi + 360) % 360`. -/
noncomputable def bearingFun (mean poi : ℝ × ℝ) : ℝ :=
  let lat1 := radiansFn mean.1
  let lon1 := radiansFn mean.2
  let lat2 := radiansFn poi.1
  let lon2 := radiansFn poi.2
  let dlon := lon2 - lon1
  let x := Real.sin dlon * Real.cos lat2
  let y := Real.cos lat1 * Real.sin lat2 -
    Real.sin lat1 * Real.cos lat2 * Real.cos dlon
  let theta := arctan2 x y
  npFmod (theta * 180 / π + 360) 360

/-- `UniformDisasterFun.__density(poi)` (source lines 75-87): converts the
already-degree coordinates with `np.radians`, then calls `haversine` with
its default `radians=False` (which converts again), and compares the
metres result strictly against `radius_km`. -/
noncomputable def uniformDensity (mean : ℝ × ℝ) (radius_km amplitude : ℝ)
    (poi : ℝ × ℝ) : ℝ :=
  let lat1 := radiansFn mean.1
  let lon1 := radiansFn mean.2
  let lat2 := radiansFn poi.1
  let lon2 := radiansFn poi.2
  if haversine lon1 lat1 lon2 lat2 false < radius_km then amplitude else 0

/-- `UniformDisasterFun.intensity(pois)` (source lines 116-136): each point
arrives as `(lon, lat)` and is flipped to `(lat, lon)` before `__density`. -/
noncomputable def uniformIntensity (mean : ℝ × ℝ) (radius_km amplitude : ℝ)
    (pois : List (ℝ × ℝ)) : List ℝ :=
  (pois.map (fun p => (p.2, p.1))).map (uniformDensity mean radius_km amplitude)

/-! ## `simulator/utils/facebook.py` : the quadkey codec -/

/-- Number of binary digits of `n` computed by repeated halving, with enough
fuel (`fuel ≥ n` suffices since the digit count is at most `n` for `n ≥ 1`). -/
def bitsLenAux : ℕ → ℕ → ℕ
  | 0, _ => 0
  | fuel + 1, n => if n = 0 then 0 else bitsLenAux fuel (n / 2) + 1

/-- Length of `format(n, 'b')` for `n ≥ 0`: binary digits, one digit for 0. -/
def bitsLen (n : ℕ) : ℕ := if n = 0 then 1 else bitsLenAux n n

/-- Length of the binary string after `trailing_zeroes` padding to `level`
(shorter strings are left-padded with zeros, longer ones left alone). -/
def padLen (level n : ℕ) : ℕ := max level (bitsLen n)

/-- `tileXY_to_quadkey` (source lines 66-116): interleave the bits of
`tileY` (even positions) and `tileX` (odd positions) and read consecutive
pairs as base-4 digits; `int(b1 + b0) % 4` equals `2*b1 + b0` for bits.
Character `i` of the padded binary string is bit `padLen - 1 - i`. -/
def tileXY_to_quadkey (tX tY level : ℕ) : List ℕ :=
  (List.range level).map (fun i =>
    2 * (tY / 2 ^ (padLen level tY - 1 - i) % 2) +
      (tX / 2 ^ (padLen level tX - 1 - i) % 2))

/-- Latitude clip in `extract_quad_keys` (source line 32). -/
noncomputable def clipLat (lat : ℝ) : ℝ :=
  if lat > 85.05112878 then 85.05112878
  else if lat < -85.05112878 then -85.05112878 else lat

/-- `pixelX` (source line 41): `((longitude + 180) / 360) * 256 * 2**14`. -/
noncomputable def pixelX (lon : ℝ) : ℝ := ((lon + 180) / 360) * 256 * 2 ^ 14

/-- `pixelY` (source lines 35-42), with the latitude already clipped. -/
noncomputable def pixelY (lat : ℝ) : ℝ :=
  let s := Real.sin (clipLat lat * π / 180)
  (0.5 - Real.log ((1 + s) / (1 - s)) / (4 * π)) * 256 * 2 ^ 14

/-- `tileX = floor(pixelX / 256)` (source line 45). -/
noncomputable def tileX (lon : ℝ) : ℤ := ⌊pixelX lon / 256⌋

/-- `tileY = floor(pixelY / 256)` (source line 46). -/
noncomputable def tileY (lat : ℝ) : ℤ := ⌊pixelY lat / 256⌋

/-- The `np.where` clamp of a tile-corner pixel into `[0, mapsize - 1]`
(source lines 54-56), `mapsize = 256 * 2**14`. -/
def clampPix (p : ℤ) : ℤ :=
  if p < 0 then 0 else if p > 256 * 2 ^ 14 - 1 then 256 * 2 ^ 14 - 1 else p

/-- The returned latitude (source lines 57-59):
`90 - 360 * arctan(exp(-y * 2 * π)) / π` with `y = 0.5 - tilePixelY/mapsize`. -/
noncomputable def tileCenterLat (lat : ℝ) : ℝ :=
  let y : ℝ := 0.5 - (clampPix (tileY lat * 256) : ℝ) / (256 * 2 ^ 14)
  90 - 360 * Real.arctan (Real.exp (-y * 2 * π)) / π

/-- The returned longitude (source lines 54-55, 60):
`360 * (tilePixelX/mapsize - 0.5)`. -/
noncomputable def tileCenterLon (lon : ℝ) : ℝ :=
  let x : ℝ := (clampPix (tileX lon * 256) : ℝ) / (256 * 2 ^ 14) - 0.5
  360 * x

/-- `extract_quad_keys` on a single `(lat, lon)` point (source lines 11-63):
returns `(latitude, longitude, quadkey)`.  Negative tile indices (which make
Python build a malformed binary string) are truncated by `Int.toNat`; no
theorem below exercises that case. -/
noncomputable def extract_quad_keys (lat lon : ℝ) : ℝ × ℝ × List ℕ :=
  (tileCenterLat lat, tileCenterLon lon,
    tileXY_to_quadkey (tileX lon).toNat (tileY lat).toNat 14)

/-! ## `population_network_from_hdx_no_geometry.py` : `update_flow`

Populations and forces are plain field arithmetic, embedded over `ℚ`;
`pandas` series `max` over a nonempty column is `maxQ`. -/

/-- Maximum of a list, as `pandas` `Series.max` on a nonempty column. -/
def maxQ : List ℚ → ℚ
  | [] => 0
  | x :: xs => xs.foldl max x

/-- Result columns of `update_flow` (source lines 123-137). -/
structure FlowState where
  repelling : Option (List ℚ)
  attractive : List ℚ
  final : List ℚ

/-- `update_flow(force)` (source lines 123-137): attractive force is the
population share, renormalized by its maximum; final force subtracts the
given force array when one is supplied. -/
def update_flow (pops : List ℚ) (force : Option (List ℚ)) : FlowState :=
  let shares := pops.map (· / pops.sum)
  let attract := shares.map (· / maxQ shares)
  { repelling := force
    attractive := attract
    final := match force with
      | some f => attract.zipWith (· - ·) f
      | none => attract }

/-! ## `PanamaDrill.simulate` : the in-transit transition step
(source lines 174-191). -/

/-- `scipy.special.expit` : the logistic function. -/
noncomputable def expit (x : ℝ) : ℝ := 1 / (1 + Real.exp (-x))

/-- A device trajectory row: start and end node ids. -/
structure Traj where
  startNode : String
  endNode : String

/-- The reach probability of an in-transit device (source lines 174-179):
`expit` of the final forces when the disaster is on, the raw final forces
otherwise. -/
noncomputable def reach_probability (disasterOn : Bool) (fs fe : ℝ) : ℝ :=
  if disasterOn then expit fe / (expit fe + expit fs)
  else fe / (fe + fs)

/-- The two masked assignments of the in-transit step (source lines 181-187):
rows with `u ≤ p` get `start := end`, then rows with `u > p` get
`end := start`.  `finalForce` looks a node's final force up by id. -/
noncomputable def transitStep (disasterOn : Bool) (finalForce : String → ℝ)
    (t : Traj) (u : ℝ) : Traj :=
  let p := reach_probability disasterOn (finalForce t.startNode)
    (finalForce t.endNode)
  let t1 := if u ≤ p then { t with startNode := t.endNode } else t
  let t2 := if u > p then { t1 with endNode := t1.startNode } else t1
  t2

/-! ## `population_network_from_hdx_no_geometry.py` / `..._from_hdx.py` :
edge construction in `build` (lines 355-392 resp. 360-397).

A node row carries its id, `(lat, lon)` in degrees and the
`EPSG:3857`-projected metre coordinates `(x, y)` produced by `to_crs`
(an external `geopandas` operation, §1 of the spec; the build logic is
independent of its formula, so `x, y` are data here). -/

structure NodeRow where
  id : String
  lat : ℝ
  lon : ℝ
  x : ℝ
  y : ℝ

/-- `MAX_DISTANCE_BETWEEN_ADJACENT_CITIES_KM * 1000` with the frozen
constant 8 (`constants.py` line 122). -/
def distMeters : ℝ := 8 * 1000

open Classical in
/-- Edge construction in `build`: candidate pairs whose projected
coordinates differ by less than `dist_meters` in both axes, filtered to
`node_id1 > node_id2`, with the Haversine distance of the radians-converted
centers, keeping only rows strictly below `dist_meters`.  Each emitted
edge is `(node_id1, node_id2, distance)`. -/
noncomputable def buildEdges (nodes : List NodeRow) : List (String × String × ℝ) :=
  let cands := nodes.flatMap (fun row =>
    (nodes.filter (fun c =>
      decide (|c.x - row.x| < distMeters) && decide (|c.y - row.y| < distMeters))).map
      (fun c => (row, c)))
  let cands2 := cands.filter (fun p => decide (p.2.id < p.1.id))
  let withDist := cands2.map (fun p =>
    (p.1.id, p.2.id,
      haversine (radiansFn p.1.lon) (radiansFn p.1.lat)
        (radiansFn p.2.lon) (radiansFn p.2.lat) true))
  withDist.filter (fun e => decide (e.2.2 < distMeters))

/-! ## Claim theorems -/

/-- C10: for every list sorted in non-decreasing order and every search
value, `binary_search` returns the largest index whose element is `≤` the
search value, and returns `-1` when the list is empty or when every element
is strictly greater than the search value. -/
theorem C10_binary_search_largest_le (v : ℤ) (arr : List ℤ)
    (hs : arr.Sorted (· ≤ ·)) :
    ((arr = [] ∨ ∀ x ∈ arr, v < x) → binary_search v arr = -1) ∧
    ((∃ x ∈ arr, x ≤ v) →
      ∃ i : ℕ, binary_search v arr = (i : ℤ) ∧ i < arr.length ∧
        arr.getD i 0 ≤ v ∧
        ∀ j : ℕ, j < arr.length → arr.getD j 0 ≤ v → j ≤ i) := by
  rcases binary_search_correct v arr hs with ⟨hres, hall⟩ | ⟨i, hres, hi, hle, hgt⟩
  · constructor
    · intro _; exact hres
    · rintro ⟨x, hx, hxv⟩
      obtain ⟨j, hj, rfl⟩ := List.mem_iff_getElem.mp hx
      have := hall j hj
      rw [List.getD_eq_getElem _ _ hj] at this
      omega
  · constructor
    · rintro (rfl | hall)
      · simp at hi
      · have hmem : arr.getD i 0 ∈ arr := by
          rw [List.getD_eq_getElem _ _ hi]
          exact List.getElem_mem hi
        have := hall _ hmem
        omega
    · intro _
      refine ⟨i, hres, hi, hle, fun j hj hjle => ?_⟩
      by_contra hcon
      have := hgt j hj (by omega)
      omega

/-- Witness for C10 at `v = 4`, `arr = [1, 3, 5]` (the largest index with
element `≤ 4` is 1). -/
theorem C10_witness :
    ([(1:ℤ), 3, 5].Sorted (· ≤ ·)) ∧
    ((([(1:ℤ), 3, 5] : List ℤ) = [] ∨ ∀ x ∈ [(1:ℤ), 3, 5], (4:ℤ) < x) →
      binary_search 4 [1, 3, 5] = -1) ∧
    ((∃ x ∈ [(1:ℤ), 3, 5], x ≤ 4) →
      ∃ i : ℕ, binary_search 4 [1, 3, 5] = (i : ℤ) ∧ i < [(1:ℤ), 3, 5].length ∧
        [(1:ℤ), 3, 5].getD i 0 ≤ 4 ∧
        ∀ j : ℕ, j < [(1:ℤ), 3, 5].length → [(1:ℤ), 3, 5].getD j 0 ≤ 4 → j ≤ i) :=
  ⟨by decide, C10_binary_search_largest_le 4 [1, 3, 5] (by decide)⟩

/-- C1: on a strictly increasing timeline, the per-tick query returns the
field at the greatest timestamp `≤ t`, and `none` when `t` precedes the
first entry.  (`get_function_by_date` is modelled from the spec, see its
definition.) -/
theorem C1_timeline_query {α : Type} (timeline : List ℤ) (funs : List α)
    (t : ℤ) (hsort : timeline.Sorted (· < ·))
    (hlen : funs.length = timeline.length) :
    (timeline ≠ [] → t < timeline.getD 0 0 →
      get_function_by_date timeline funs t = none) ∧
    (∀ i : ℕ, i < timeline.length → timeline.getD i 0 ≤ t →
      (∀ j : ℕ, j < timeline.length → timeline.getD j 0 ≤ t → j ≤ i) →
      get_function_by_date timeline funs t = funs.get? i ∧ i < funs.length) := by
  have hs : timeline.Sorted (· ≤ ·) := hsort.le_of_lt
  rcases binary_search_correct t timeline hs with ⟨hres, hall⟩ | ⟨i0, hres, hi0, hle0, hgt0⟩
  · constructor
    · intro _ _
      simp [get_function_by_date, hres]
    · intro i hi hile _
      have := hall i hi
      omega
  · constructor
    · intro hne hfirst
      have h0 : 0 < timeline.length := List.length_pos.mpr hne
      have := sorted_getD_mono hs (Nat.zero_le i0) hi0
      omega
    · intro i hi hile hmax
      have h1 : i0 ≤ i := hmax i0 hi0 hle0
      have h2 : i ≤ i0 := by
        by_contra hcon
        have := hgt0 i hi (by omega)
        omega
      have hii : i0 = i := by omega
      subst hii
      have hne : (i0 : ℤ) ≠ -1 := by omega
      constructor
      · simp only [get_function_by_date, hres, if_neg hne, Int.toNat_natCast]
      · omega

/-- Witness for C1: timeline `[0, 100, 200]`, fields `[10, 20, 30]`,
query `t = 150` picks index 1. -/
theorem C1_witness :
    (([0, 100, 200] : List ℤ).Sorted (· < ·)) ∧
    (([0, 100, 200] : List ℤ).getD 1 0 ≤ 150) ∧
    (get_function_by_date [0, 100, 200] [10, 20, 30] (150 : ℤ) =
      [10, 20, 30].get? 1 ∧ 1 < [10, 20, 30].length) := by
  refine ⟨by decide, by decide, ?_⟩
  exact (C1_timeline_query [0, 100, 200] [10, 20, 30] 150 (by decide) (by decide)).2
    1 (by decide) (by decide) (by decide)

/-! ### Helper lemmas for `maxQ` -/

lemma foldl_max_init_le (xs : List ℚ) (a : ℚ) : a ≤ xs.foldl max a := by
  induction xs generalizing a with
  | nil => exact le_refl _
  | cons x xs ih => exact le_trans (le_max_left a x) (ih (max a x))

lemma mem_le_foldl_max (xs : List ℚ) (a : ℚ) :
    ∀ x ∈ xs, x ≤ xs.foldl max a := by
  induction xs generalizing a with
  | nil => intro x hx; cases hx
  | cons y ys ih =>
    intro x hx
    rcases List.mem_cons.mp hx with rfl | hmem
    · exact le_trans (le_max_right a x) (foldl_max_init_le ys (max a x))
    · exact ih (max a y) x hmem

lemma le_maxQ (l : List ℚ) : ∀ x ∈ l, x ≤ maxQ l := by
  cases l with
  | nil => intro x hx; cases hx
  | cons y ys =>
    intro x hx
    rcases List.mem_cons.mp hx with rfl | hmem
    · exact foldl_max_init_le ys x
    · exact mem_le_foldl_max ys y x hmem

lemma foldl_max_map_div (xs : List ℚ) (a c : ℚ) (hc : 0 < c) :
    (xs.map (· / c)).foldl max (a / c) = (xs.foldl max a) / c := by
  induction xs generalizing a with
  | nil => rfl
  | cons x xs ih =>
    simp only [List.map_cons, List.foldl_cons]
    rw [max_div_div_right hc.le, ih]

lemma maxQ_map_div (l : List ℚ) (c : ℚ) (hc : 0 < c) :
    maxQ (l.map (· / c)) = maxQ l / c := by
  cases l with
  | nil => simp [maxQ]
  | cons x xs => exact foldl_max_map_div xs x c hc

lemma sum_nonpos_of_all_nonpos (l : List ℚ) (h : ∀ x ∈ l, x ≤ 0) :
    l.sum ≤ 0 := by
  induction l with
  | nil => simp
  | cons x xs ih =>
    rw [List.sum_cons]
    have hx := h x (List.mem_cons_self _ _)
    have hs := ih (fun y hy => h y (List.mem_cons_of_mem _ hy))
    linarith

lemma maxQ_pos_of_sum_pos (l : List ℚ) (h : 0 < l.sum) : 0 < maxQ l := by
  by_contra hcon
  push_neg at hcon
  have : ∀ x ∈ l, x ≤ 0 := fun x hx => le_trans (le_maxQ l x hx) hcon
  have := sum_nonpos_of_all_nonpos l this
  linarith

/-- C7: after `update_flow` on a network with positive total population,
each node's attractive force is its population share rescaled by the
maximum share, the maximum attractive force is exactly 1, and the final
force is `attract - repel` (equal to `attract` when no force is given). -/
theorem C7_update_flow_normalization (pops : List ℚ) (force : Option (List ℚ))
    (hS : 0 < pops.sum) :
    maxQ (update_flow pops force).attractive = 1 ∧
    (∀ i : ℕ, i < pops.length →
      (update_flow pops force).attractive.getD i 0 =
        (pops.getD i 0 / pops.sum) / maxQ (pops.map (· / pops.sum))) ∧
    (∀ f, force = some f → f.length = pops.length →
      ∀ i : ℕ, i < pops.length →
        (update_flow pops force).final.getD i 0 =
          (update_flow pops force).attractive.getD i 0 - f.getD i 0) ∧
    (force = none →
      (update_flow pops force).final = (update_flow pops force).attractive) := by
  have hmp : 0 < maxQ pops := maxQ_pos_of_sum_pos pops hS
  have hm : maxQ (pops.map (· / pops.sum)) = maxQ pops / pops.sum :=
    maxQ_map_div pops pops.sum hS
  have hmpos : 0 < maxQ (pops.map (· / pops.sum)) := by
    rw [hm]; positivity
  have hattr : (update_flow pops force).attractive =
      (pops.map (· / pops.sum)).map (· / maxQ (pops.map (· / pops.sum))) := rfl
  have hlenattr : (update_flow pops force).attractive.length = pops.length := by
    rw [hattr]; simp
  refine ⟨?_, ?_, ?_, ?_⟩
  · rw [hattr, maxQ_map_div _ _ hmpos, div_self (ne_of_gt hmpos)]
  · intro i hi
    have hi1 : i < (pops.map (· / pops.sum)).length := by simpa using hi
    rw [hattr, List.getD_eq_getElem _ _ (by simpa using hi), List.getElem_map,
      List.getElem_map, List.getD_eq_getElem _ _ hi]
  · rintro f rfl hflen i hi
    have hfin : (update_flow pops (some f)).final =
        (update_flow pops (some f)).attractive.zipWith (· - ·) f := rfl
    have hlz : ((update_flow pops (some f)).attractive.zipWith (· - ·) f).length
        = pops.length := by
      rw [List.length_zipWith, hlenattr, hflen]
      exact Nat.min_self _
    rw [hfin, List.getD_eq_getElem _ _ (by rw [hlz]; exact hi),
      List.getElem_zipWith, List.getD_eq_getElem _ _ (by rw [hlenattr]; exact hi),
      List.getD_eq_getElem _ _ (by rw [hflen]; exact hi)]
  · rintro rfl
    rfl

/-- Witness for C7 at `pops = [1, 3]`, `force = some [1/2, 1/4]`. -/
theorem C7_witness :
    (0 : ℚ) < ([1, 3] : List ℚ).sum ∧
    (maxQ (update_flow [1, 3] (some [1/2, 1/4])).attractive = 1 ∧
    (∀ i : ℕ, i < ([1, 3] : List ℚ).length →
      (update_flow [1, 3] (some [1/2, 1/4])).attractive.getD i 0 =
        (([1, 3] : List ℚ).getD i 0 / ([1, 3] : List ℚ).sum) /
          maxQ (([1, 3] : List ℚ).map (· / ([1, 3] : List ℚ).sum))) ∧
    (∀ f, (some [1/2, 1/4] : Option (List ℚ)) = some f →
      f.length = ([1, 3] : List ℚ).length →
      ∀ i : ℕ, i < ([1, 3] : List ℚ).length →
        (update_flow [1, 3] (some [1/2, 1/4])).final.getD i 0 =
          (update_flow [1, 3] (some [1/2, 1/4])).attractive.getD i 0 - f.getD i 0) ∧
    ((some [1/2, 1/4] : Option (List ℚ)) = none →
      (update_flow [1, 3] (some [1/2, 1/4])).final =
        (update_flow [1, 3] (some [1/2, 1/4])).attractive)) :=
  ⟨by norm_num, C7_update_flow_normalization [1, 3] (some [1/2, 1/4]) (by norm_num)⟩

/-! ### C9 : bearing range -/

lemma npFmod_nonneg_lt (z : ℝ) : 0 ≤ npFmod z 360 ∧ npFmod z 360 < 360 := by
  have h360 : (0:ℝ) < 360 := by norm_num
  have hfr : npFmod z 360 = 360 * Int.fract (z / 360) := by
    unfold npFmod Int.fract
    field_simp
  constructor
  · rw [hfr]
    exact mul_nonneg h360.le (Int.fract_nonneg _)
  · rw [hfr]
    calc 360 * Int.fract (z / 360) < 360 * 1 :=
      (mul_lt_mul_left h360).mpr (Int.fract_lt_one _)
    _ = 360 := mul_one 360

/-- C9: the bearing computed by the disaster fields lies in `[0, 360)` for
every pair of input points, and equals 0 when the target point coincides
with the source point. -/
theorem C9_bearing_range (mean poi q : ℝ × ℝ) :
    0 ≤ bearingFun mean poi ∧ bearingFun mean poi < 360 ∧
    bearingFun q q = 0 := by
  refine ⟨(npFmod_nonneg_lt _).1, (npFmod_nonneg_lt _).2, ?_⟩
  have hθ : arctan2 (Real.sin (radiansFn q.2 - radiansFn q.2) *
      Real.cos (radiansFn q.1))
      (Real.cos (radiansFn q.1) * Real.sin (radiansFn q.1) -
        Real.sin (radiansFn q.1) * Real.cos (radiansFn q.1) *
          Real.cos (radiansFn q.2 - radiansFn q.2)) = 0 := by
    have hx : Real.sin (radiansFn q.2 - radiansFn q.2) *
        Real.cos (radiansFn q.1) = 0 := by
      rw [sub_self, Real.sin_zero, zero_mul]
    have hy : Real.cos (radiansFn q.1) * Real.sin (radiansFn q.1) -
        Real.sin (radiansFn q.1) * Real.cos (radiansFn q.1) *
          Real.cos (radiansFn q.2 - radiansFn q.2) = 0 := by
      rw [sub_self, Real.cos_zero, mul_one]
      ring
    rw [hx, hy]
    simp [arctan2]
  simp only [bearingFun]
  rw [hθ]
  have h1 : (0:ℝ) * 180 / π + 360 = 360 := by
    rw [zero_mul, zero_div, zero_add]
  rw [h1]
  unfold npFmod
  have : (360:ℝ) / 360 = 1 := by norm_num
  rw [this, Int.floor_one]
  norm_num

/-! ### C6 : the in-transit transition step -/

/-- C6: for a device in transit (`start ≠ end`), the step computes
`p_reach = g(final[end]) / (g(final[end]) + g(final[start]))` with
`g = expit` when the disaster is on and `g = id` otherwise; a draw
`u ≤ p_reach` moves the device to `end`, otherwise back to `start`, and in
both cases the device afterwards has `start = end`. -/
theorem C6_transit_step (disasterOn : Bool) (finalForce : String → ℝ)
    (t : Traj) (u : ℝ) (_hne : t.startNode ≠ t.endNode) :
    (transitStep disasterOn finalForce t u).startNode =
      (transitStep disasterOn finalForce t u).endNode ∧
    (u ≤ reach_probability disasterOn (finalForce t.startNode)
        (finalForce t.endNode) →
      transitStep disasterOn finalForce t u = ⟨t.endNode, t.endNode⟩) ∧
    (¬ u ≤ reach_probability disasterOn (finalForce t.startNode)
        (finalForce t.endNode) →
      transitStep disasterOn finalForce t u = ⟨t.startNode, t.startNode⟩) ∧
    (∀ fs fe : ℝ, reach_probability true fs fe =
      expit fe / (expit fe + expit fs)) ∧
    (∀ fs fe : ℝ, reach_probability false fs fe = fe / (fe + fs)) := by
  by_cases hu : u ≤ reach_probability disasterOn (finalForce t.startNode)
      (finalForce t.endNode)
  · have hstep : transitStep disasterOn finalForce t u = ⟨t.endNode, t.endNode⟩ := by
      simp only [transitStep, if_pos hu, gt_iff_lt, if_neg (not_lt.mpr hu)]
    refine ⟨by rw [hstep], fun _ => hstep, fun hcon => absurd hu hcon,
      fun _ _ => rfl, fun _ _ => rfl⟩
  · have hstep : transitStep disasterOn finalForce t u =
        ⟨t.startNode, t.startNode⟩ := by
      simp only [transitStep, if_neg hu, gt_iff_lt, if_pos (not_le.mp hu)]
    refine ⟨by rw [hstep], fun hcon => absurd hcon hu, fun _ => hstep,
      fun _ _ => rfl, fun _ _ => rfl⟩

/-- Witness for C6 at a concrete in-transit device. -/
theorem C6_witness :
    ("a" : String) ≠ "b" ∧
    ((transitStep false (fun _ => 1) ⟨"a", "b"⟩ 0).startNode =
      (transitStep false (fun _ => 1) ⟨"a", "b"⟩ 0).endNode ∧
    (0 ≤ reach_probability false ((fun _ => (1:ℝ)) "a") ((fun _ => (1:ℝ)) "b") →
      transitStep false (fun _ => 1) ⟨"a", "b"⟩ 0 = ⟨"b", "b"⟩) ∧
    (¬ (0:ℝ) ≤ reach_probability false ((fun _ => (1:ℝ)) "a")
        ((fun _ => (1:ℝ)) "b") →
      transitStep false (fun _ => 1) ⟨"a", "b"⟩ 0 = ⟨"a", "a"⟩) ∧
    (∀ fs fe : ℝ, reach_probability true fs fe =
      expit fe / (expit fe + expit fs)) ∧
    (∀ fs fe : ℝ, reach_probability false fs fe = fe / (fe + fs))) :=
  ⟨by decide, C6_transit_step false (fun _ => 1) ⟨"a", "b"⟩ 0 (by decide)⟩

/-! ### C2 : canonical form of built edges -/

/-- Every edge emitted by `buildEdges` comes from two input node rows with
`node_id2 < node_id1` and carries their Haversine distance, which is
strictly below `dist_meters`. -/
lemma mem_buildEdges {nodes : List NodeRow} {e : String × String × ℝ}
    (he : e ∈ buildEdges nodes) :
    ∃ a b : NodeRow, a ∈ nodes ∧ b ∈ nodes ∧
      e = (a.id, b.id, haversine (radiansFn a.lon) (radiansFn a.lat)
        (radiansFn b.lon) (radiansFn b.lat) true) ∧
      b.id < a.id ∧ e.2.2 < distMeters := by
  unfold buildEdges at he
  simp only [List.mem_filter, List.mem_map, List.mem_flatMap, Bool.and_eq_true,
    decide_eq_true_eq] at he
  obtain ⟨he1, hdist⟩ := he
  obtain ⟨p, hp, rfl⟩ := he1
  obtain ⟨hpc, hlt⟩ := hp
  obtain ⟨row, hrow, hmem⟩ := hpc
  obtain ⟨c, hc, rfl⟩ := hmem
  exact ⟨row, c, hrow, hc.1, rfl, hlt, hdist⟩

/-- C2 (amended): every edge emitted by the network builder connects two
distinct nodes with `node_id1 > node_id2` (the source keeps
`edges[edges.node_id1 > edges.node_id2]`), and the Haversine distance
between the two node centers is at most
`MAX_DISTANCE_BETWEEN_ADJACENT_CITIES_KM * 1000` metres. -/
theorem C2_edge_canonical_form (nodes : List NodeRow) (e : String × String × ℝ)
    (he : e ∈ buildEdges nodes) :
    e.2.1 < e.1 ∧ e.1 ≠ e.2.1 ∧ e.2.2 ≤ 8 * 1000 ∧
    ∃ a b : NodeRow, a ∈ nodes ∧ b ∈ nodes ∧ e.1 = a.id ∧ e.2.1 = b.id ∧
      e.2.2 = haversine (radiansFn a.lon) (radiansFn a.lat)
        (radiansFn b.lon) (radiansFn b.lat) true := by
  obtain ⟨a, b, ha, hb, heq, hlt, hdist⟩ := mem_buildEdges he
  subst heq
  refine ⟨hlt, ne_of_gt hlt, ?_, a, b, ha, hb, rfl, rfl, rfl⟩
  have : distMeters = 8 * 1000 := by norm_num [distMeters]
  rw [this] at hdist
  exact le_of_lt hdist

lemma buildEdges_mem_intro {nodes : List NodeRow} {a b : NodeRow}
    (ha : a ∈ nodes) (hb : b ∈ nodes)
    (hx : |b.x - a.x| < distMeters) (hy : |b.y - a.y| < distMeters)
    (hid : b.id < a.id)
    (hd : haversine (radiansFn a.lon) (radiansFn a.lat)
      (radiansFn b.lon) (radiansFn b.lat) true < distMeters) :
    (a.id, b.id, haversine (radiansFn a.lon) (radiansFn a.lat)
      (radiansFn b.lon) (radiansFn b.lat) true) ∈ buildEdges nodes := by
  unfold buildEdges
  simp only [List.mem_filter, List.mem_map, List.mem_flatMap, Bool.and_eq_true,
    decide_eq_true_eq]
  exact ⟨⟨(a, b), ⟨⟨a, ha, b, ⟨hb, hx, hy⟩, rfl⟩, hid⟩, rfl⟩, hd⟩

/-- The two-node input used to exhibit the inverted edge ordering. -/
def cexNodes : List NodeRow := [⟨"A", 0, 0, 0, 0⟩, ⟨"B", 0, 0, 0, 0⟩]

lemma haversine_zero_args : haversine 0 0 0 0 true = 0 := by
  simp [haversine]

lemma cex_edge_mem :
    ("B", "A", haversine (radiansFn 0) (radiansFn 0)
      (radiansFn 0) (radiansFn 0) true) ∈ buildEdges cexNodes := by
  have h0 : radiansFn 0 = 0 := by simp [radiansFn]
  have hd : haversine (radiansFn 0) (radiansFn 0)
      (radiansFn 0) (radiansFn 0) true < distMeters := by
    rw [h0, haversine_zero_args]
    norm_num [distMeters]
  exact buildEdges_mem_intro (a := ⟨"B", 0, 0, 0, 0⟩) (b := ⟨"A", 0, 0, 0, 0⟩)
    (by simp [cexNodes]) (by simp [cexNodes])
    (by norm_num [distMeters]) (by norm_num [distMeters])
    (by show ("A" : String) < "B"; rw [String.lt_iff_toList_lt]; decide) hd

/-- Counterexample to C2 as stated: the builder emits the edge
`("B", "A", _)` on `cexNodes`, whose node ids do not satisfy
`node_id1 < node_id2` (the source keeps pairs with `node_id1 > node_id2`). -/
theorem C2_counterexample :
    ("B", "A", haversine (radiansFn 0) (radiansFn 0)
      (radiansFn 0) (radiansFn 0) true) ∈ buildEdges cexNodes ∧
    ¬ (("B" : String) < "A") :=
  ⟨cex_edge_mem, by rw [String.lt_iff_toList_lt]; decide⟩

/-- Witness for C2 (amended) at the concrete edge emitted on `cexNodes`. -/
theorem C2_witness :
    (("B", "A", haversine (radiansFn 0) (radiansFn 0)
      (radiansFn 0) (radiansFn 0) true).2.1 <
      ("B", "A", haversine (radiansFn 0) (radiansFn 0)
        (radiansFn 0) (radiansFn 0) true).1) ∧
    (("B", "A", haversine (radiansFn 0) (radiansFn 0)
      (radiansFn 0) (radiansFn 0) true).1 ≠
      ("B", "A", haversine (radiansFn 0) (radiansFn 0)
        (radiansFn 0) (radiansFn 0) true).2.1) ∧
    (("B", "A", haversine (radiansFn 0) (radiansFn 0)
      (radiansFn 0) (radiansFn 0) true).2.2 ≤ 8 * 1000) ∧
    ∃ a b : NodeRow, a ∈ cexNodes ∧ b ∈ cexNodes ∧
      ("B", "A", haversine (radiansFn 0) (radiansFn 0)
        (radiansFn 0) (radiansFn 0) true).1 = a.id ∧
      ("B", "A", haversine (radiansFn 0) (radiansFn 0)
        (radiansFn 0) (radiansFn 0) true).2.1 = b.id ∧
      ("B", "A", haversine (radiansFn 0) (radiansFn 0)
        (radiansFn 0) (radiansFn 0) true).2.2 =
        haversine (radiansFn a.lon) (radiansFn a.lat)
          (radiansFn b.lon) (radiansFn b.lat) true :=
  C2_edge_canonical_form cexNodes _ cex_edge_mem

/-! ### C3 : the `exponential` decay branch is dead code -/

/-- Lengths of the lists produced by the generator loop. -/
lemma genIter_length (epi vxy : ℝ × ℝ) (A0 : ℝ) (method : String)
    (steps tstep endD : ℤ) (hc : Bool) (cf : Option DisasterFunction) :
    ∀ (r idx : ℕ) (tPrev : ℤ) (A : ℝ),
      (genIter epi vxy A0 method steps tstep endD hc cf r idx tPrev A).1.length = r ∧
      (genIter epi vxy A0 method steps tstep endD hc cf r idx tPrev A).2.length = r := by
  intro r
  induction r with
  | zero => intro idx tPrev A; exact ⟨rfl, rfl⟩
  | succ n ih =>
    intro idx tPrev A
    rw [genIter]
    by_cases h : (hc : Prop) ∧ endD < tPrev + tstep
    · rw [if_pos h]
      simp only [List.length_cons]
      exact ⟨congrArg (· + 1) (ih _ _ _).1, congrArg (· + 1) (ih _ _ _).2⟩
    · rw [if_neg h]
      simp only [List.length_cons]
      exact ⟨congrArg (· + 1) (ih _ _ _).1, congrArg (· + 1) (ih _ _ _).2⟩

/-- Unfolding of `generate_disaster` for a valid decay method, a valid step
unit (`'hr'` or `'day'`) and no pre-supplied functions or timeline. -/
lemma generate_disaster_valid_eq (epi vxy : ℝ × ℝ) (A0 : ℝ) (method stepUnit : String)
    (hm : method = "linear" ∨ method = "exponential" ∨ method = "parabolic")
    (hu : stepUnit = "hr" ∨ stepUnit = "day")
    (s e : ℤ) (cont : Option ℤ) (cf : Option DisasterFunction) :
    generate_disaster epi vxy A0 method stepUnit s e cont cf none none =
      some (s :: (genIter epi vxy A0 method
          (npRound (((cont.getD e - s : ℤ) : ℚ) /
            (((if stepUnit = "day" then (86400 : ℤ) else 3600) : ℤ) : ℚ)))
          (if stepUnit = "day" then (86400 : ℤ) else 3600) e
          cont.isSome cf
          (npRound (((cont.getD e - s : ℤ) : ℚ) /
            (((if stepUnit = "day" then (86400 : ℤ) else 3600) : ℤ) : ℚ))).toNat
          0 s A0).1,
        some (.normal epi vxy A0) ::
          (genIter epi vxy A0 method
            (npRound (((cont.getD e - s : ℤ) : ℚ) /
              (((if stepUnit = "day" then (86400 : ℤ) else 3600) : ℤ) : ℚ)))
            (if stepUnit = "day" then (86400 : ℤ) else 3600) e
            cont.isSome cf
            (npRound (((cont.getD e - s : ℤ) : ℚ) /
              (((if stepUnit = "day" then (86400 : ℤ) else 3600) : ℤ) : ℚ))).toNat
            0 s A0).2) := by
  unfold generate_disaster
  rw [if_neg (not_not_intro hm), if_neg (not_not_intro hu)]
  simp only [List.isEmpty_nil, Option.getD_none, Option.getD_some]
  norm_num
  have hmatch : (match cont with | some c => c | none => e) = cont.getD e := by
    cases cont <;> rfl
  rw [hmatch]
  exact ⟨rfl, rfl⟩

/-- C3: the claim is right and the code is wrong.  `generate_disaster`
accepts `method='exponential'` (its own `assert` lists that spelling) but
the decay branch tests the misspelled `'exponetial'`, so with
`method='exponential'` no branch fires and every generated amplitude stays
`A0` instead of `A0 * exp(-k)`; the misspelled `'exponetial'` itself is
rejected by the `assert`.  Evaluated at
`A0 = 2, start = 0, end = 7200 s, Δt = 1 h`. -/
theorem C3_exponential_decay_dead_branch :
    generate_disaster (0, 0) (1, 1) 2 "exponential" "hr" 0 7200
        none none none none =
      some ([0, 3600, 7200],
        [some (.normal (0, 0) (1, 1) 2), some (.normal (0, 0) (1, 1) 2),
          some (.normal (0, 0) (1, 1) 2)]) ∧
    (2 : ℝ) ≠ 2 * Real.exp (-(1 : ℝ)) ∧
    generate_disaster (0, 0) (1, 1) 2 "exponetial" "hr" 0 7200
        none none none none = none := by
  refine ⟨?_, ?_, by rfl⟩
  · rw [generate_disaster_valid_eq (0, 0) (1, 1) 2 "exponential" "hr"
      (Or.inr (Or.inl rfl)) (Or.inl rfl) 0 7200 none none]
    rw [show (if ("hr" : String) = "day" then (86400 : ℤ) else 3600) = 3600
      from rfl]
    have hsteps : npRound ((((none : Option ℤ).getD 7200 - 0 : ℤ) : ℚ) /
        ((3600 : ℤ) : ℚ)) = 2 := by
      norm_num [npRound]
    rw [hsteps]
    rfl
  have h1 : Real.exp (-(1:ℝ)) < 1 := by
    have := Real.exp_lt_exp.mpr (show (-(1:ℝ)) < 0 by norm_num)
    rwa [Real.exp_zero] at this
  intro hcon
  nlinarith [h1]

/-! ### C5 : which entries carry the residual field -/

/-- In the generator loop with a continuity timestamp set, every produced
entry whose timestamp exceeds the *end date* carries `continuity_fun`. -/
lemma genIter_after_end (epi vxy : ℝ × ℝ) (A0 : ℝ) (method : String)
    (steps tstep endD : ℤ) (cf : Option DisasterFunction) :
    ∀ (r idx : ℕ) (tPrev : ℤ) (A : ℝ) (k : ℕ), k < r →
      endD < (genIter epi vxy A0 method steps tstep endD true cf
        r idx tPrev A).1.getD k 0 →
      (genIter epi vxy A0 method steps tstep endD true cf
        r idx tPrev A).2.getD k none = cf := by
  intro r
  induction r with
  | zero => intro idx tPrev A k hk; omega
  | succ n ih =>
    intro idx tPrev A k hk
    rw [genIter]
    by_cases h : (true : Bool) ∧ endD < tPrev + tstep
    · rw [if_pos h]
      cases k with
      | zero => intro _; rfl
      | succ m =>
        intro hgt
        exact ih (idx + 1) (tPrev + tstep) A m (by omega) hgt
    · rw [if_neg h]
      cases k with
      | zero =>
        intro hgt
        simp only [List.getD_cons_zero] at hgt
        exact absurd ⟨rfl, hgt⟩ h
      | succ m =>
        intro hgt
        exact ih (idx + 1) (tPrev + tstep) _ m (by omega) hgt

/-- C5 (amended): when a continuity timestamp and a residual field are
supplied and the disaster starts no later than it ends, every generated
timeline entry whose timestamp is strictly greater than the *end date* has
the residual field attached, for any step unit (the source admits `'hr'`
and `'day'`; anything else fails its `assert`).  The source's condition is
`disaster_timeline[idx] + time_step > self.__end_date`, not a comparison
with the continuity timestamp. -/
theorem C5_residual_after_end (epi vxy : ℝ × ℝ) (A0 : ℝ) (method stepUnit : String)
    (s e c : ℤ) (rf : DisasterFunction) (tl : List ℤ)
    (fs : List (Option DisasterFunction)) (hse : s ≤ e)
    (hgen : generate_disaster epi vxy A0 method stepUnit s e (some c) (some rf)
      none none = some (tl, fs)) :
    ∀ k : ℕ, k < tl.length → e < tl.getD k 0 → fs.getD k none = some rf := by
  by_cases hm : method = "linear" ∨ method = "exponential" ∨ method = "parabolic"
  · by_cases hu : stepUnit = "hr" ∨ stepUnit = "day"
    · rw [generate_disaster_valid_eq epi vxy A0 method stepUnit hm hu s e (some c)
        (some rf)] at hgen
      simp only [Option.getD_some, Option.isSome_some, Option.some.injEq,
        Prod.mk.injEq] at hgen
      obtain ⟨htl, hfs⟩ := hgen
      subst htl
      subst hfs
      intro k hk hgt
      cases k with
      | zero =>
        rw [List.getD_cons_zero] at hgt
        omega
      | succ m =>
        rw [List.getD_cons_succ] at hgt
        rw [List.getD_cons_succ]
        have hlen := (genIter_length epi vxy A0 method
          (npRound (((c - s : ℤ) : ℚ) /
            (((if stepUnit = "day" then (86400 : ℤ) else 3600) : ℤ) : ℚ)))
          (if stepUnit = "day" then (86400 : ℤ) else 3600) e true (some rf)
          (npRound (((c - s : ℤ) : ℚ) /
            (((if stepUnit = "day" then (86400 : ℤ) else 3600) : ℤ) : ℚ))).toNat
          0 s A0).1
        rw [List.length_cons, hlen] at hk
        exact genIter_after_end epi vxy A0 method
          (npRound (((c - s : ℤ) : ℚ) /
            (((if stepUnit = "day" then (86400 : ℤ) else 3600) : ℤ) : ℚ)))
          (if stepUnit = "day" then (86400 : ℤ) else 3600) e (some rf) _ 0 s A0
          m (by omega) hgt
    · rw [show generate_disaster epi vxy A0 method stepUnit s e (some c)
          (some rf) none none = none by
        unfold generate_disaster
        rw [if_neg (not_not_intro hm), if_pos hu]] at hgen
      exact absurd hgen (by simp)
  · rw [show generate_disaster epi vxy A0 method stepUnit s e (some c) (some rf)
        none none = none by unfold generate_disaster; rw [if_pos hm]] at hgen
    exact absurd hgen (by simp)

/-- Witness for C5 (amended) : `start = end = 0`, `continuity = 7200 s`,
residual field `UniformDisasterFun((0,0), 100, 1.5)`; both generated steps
lie after the end date and carry the residual field. -/
theorem C5_witness :
    (1 : ℕ) < ([0, 3600, 7200] : List ℤ).length ∧
    (0 : ℤ) < ([0, 3600, 7200] : List ℤ).getD 1 0 ∧
    ([some (DisasterFunction.normal (0, 0) (1, 1) 1),
      some (DisasterFunction.uniform (0, 0) 100 (3/2)),
      some (DisasterFunction.uniform (0, 0) 100 (3/2))] :
        List (Option DisasterFunction)).getD 1 none =
      some (DisasterFunction.uniform (0, 0) 100 (3/2)) :=
  ⟨by decide, by decide,
    C5_residual_after_end (0, 0) (1, 1) 1 "linear" "hr" 0 0 7200
      (DisasterFunction.uniform (0, 0) 100 (3/2)) _ _ (le_refl 0) (by
        rw [generate_disaster_valid_eq (0, 0) (1, 1) 1 "linear" "hr"
          (Or.inl rfl) (Or.inl rfl) 0 0
          (some 7200) (some (DisasterFunction.uniform (0, 0) 100 (3/2)))]
        rw [show (if ("hr" : String) = "day" then (86400 : ℤ) else 3600) = 3600
          from rfl]
        have hsteps : npRound ((((some (7200:ℤ) : Option ℤ).getD 0 - 0 : ℤ) : ℚ) /
            ((3600 : ℤ) : ℚ)) = 2 := by norm_num [npRound]
        rw [hsteps]
        rfl) 1 (by decide) (by decide)⟩

/-- Counterexample to C5 as stated: with `start = 0`, `end = 36000 s`,
`continuity = 5400 s`, `Δt = 1 h`, the rounded step count is 2 and the
entry at `t_2 = 7200 s > continuity` carries a Gaussian field, not the
residual field, because the source compares against the end date. -/
theorem C5_counterexample :
    ¬ (∀ (tl : List ℤ) (fs : List (Option DisasterFunction)),
        generate_disaster (0, 0) (1, 1) 2 "linear" "hr" 0 36000 (some 5400)
          (some (DisasterFunction.uniform (0, 0) 100 (3/2))) none none =
          some (tl, fs) →
        ∀ k : ℕ, k < tl.length → (5400 : ℤ) < tl.getD k 0 →
          fs.getD k none = some (DisasterFunction.uniform (0, 0) 100 (3/2))) := by
  intro h
  have hrun : generate_disaster (0, 0) (1, 1) 2 "linear" "hr" 0 36000 (some 5400)
      (some (DisasterFunction.uniform (0, 0) 100 (3/2))) none none =
      some ([0, 3600, 7200],
        [some (DisasterFunction.normal (0, 0) (1, 1) 2),
         some (DisasterFunction.normal (0, 0) (1, 1)
           (-(2:ℝ) / ((2:ℤ):ℝ) * ((0:ℕ):ℝ) + 2)),
         some (DisasterFunction.normal (0, 0) (1, 1)
           (-(2:ℝ) / ((2:ℤ):ℝ) * ((1:ℕ):ℝ) + 2))]) := by
    rw [generate_disaster_valid_eq (0, 0) (1, 1) 2 "linear" "hr"
      (Or.inl rfl) (Or.inl rfl) 0 36000
      (some 5400) (some (DisasterFunction.uniform (0, 0) 100 (3/2)))]
    rw [show (if ("hr" : String) = "day" then (86400 : ℤ) else 3600) = 3600
      from rfl]
    have hsteps : npRound ((((some (5400:ℤ) : Option ℤ).getD 36000 - 0 : ℤ) : ℚ) /
        ((3600 : ℤ) : ℚ)) = 2 := by norm_num [npRound]
    rw [hsteps]
    rfl
  have hbad := h _ _ hrun 2 (by norm_num) (by norm_num)
  exact absurd hbad (by simp)

/-! ### C4 : the uniform-disk field's distance test -/

/-- With `radians=False` the source converts every coordinate once more. -/
lemma haversine_false_eq (a b c d : ℝ) :
    haversine a b c d false =
      haversine (radiansFn a) (radiansFn b) (radiansFn c) (radiansFn d) true := rfl

lemma radiansFn_zero : radiansFn 0 = 0 := by simp [radiansFn]

/-- `haversine` with equal longitudes, radian inputs and a small
non-negative latitude difference reduces to arc length times the radius. -/
lemma haversine_same_lon (lo la1 la2 : ℝ) (h0 : 0 ≤ la2 - la1)
    (hpi : la2 - la1 ≤ π) :
    haversine lo la1 lo la2 true = (la2 - la1) * (6371 * 1000) := by
  have hpi2 : (la2 - la1) / 2 ≤ π / 2 := by linarith
  have h02 : 0 ≤ (la2 - la1) / 2 := by linarith
  have hs : Real.sin ((lo - lo) / 2) = 0 := by
    rw [sub_self, zero_div, Real.sin_zero]
  have hsq : Real.sqrt (Real.sin ((la2 - la1) / 2) ^ 2 +
      Real.cos la1 * Real.cos la2 * Real.sin ((lo - lo) / 2) ^ 2) =
      Real.sin ((la2 - la1) / 2) := by
    rw [hs, show Real.cos la1 * Real.cos la2 * (0:ℝ) ^ 2 = 0 by ring, add_zero]
    exact Real.sqrt_sq (Real.sin_nonneg_of_nonneg_of_le_pi h02 (by linarith
      [Real.pi_pos]))
  show (2 * Real.arcsin (Real.sqrt (Real.sin ((la2 - la1) / 2) ^ 2 +
      Real.cos la1 * Real.cos la2 * Real.sin ((lo - lo) / 2) ^ 2))) *
      (6371 * 1000) = (la2 - la1) * (6371 * 1000)
  rw [hsq, Real.arcsin_sin (by linarith [Real.pi_pos]) hpi2]
  ring

/-- C4: the claim is right and the code is wrong.  `__density` feeds
radian coordinates into `haversine` with its default `radians=False`
(converting twice) and compares the metre result against `radius_km`.
At mean `(0,0)`, `radius_km = 100`, `amplitude = 2` and query point
`(lat, lon) = (0.45°, 0)`: the spec-side Haversine distance is
`6371·π/400 ≈ 50 km ≤ 100`, so the claim demands intensity 2, but the code
computes `6371000·π²/72000 ≈ 873 ≥ 100` and returns 0. -/
theorem C4_uniform_disk_distance_bug :
    haversineKmSpec (0, 0) (9/20, 0) ≤ 100 ∧
    uniformIntensity (0, 0) 100 2 [((0 : ℝ), (9/20 : ℝ))] = [0] ∧
    (0 : ℝ) ≠ 2 := by
  have hpi4 := Real.pi_lt_four
  have hpi3 := Real.pi_gt_three
  have hpip := Real.pi_pos
  refine ⟨?_, ?_, by norm_num⟩
  · show 2 * Real.arcsin (Real.sqrt (Real.sin (radiansFn ((9:ℝ)/20 - 0) / 2) ^ 2 +
      Real.cos (radiansFn 0) * Real.cos (radiansFn (9/20)) *
        Real.sin (radiansFn ((0:ℝ) - 0) / 2) ^ 2)) * 6371 ≤ 100
    have h1 : radiansFn ((0:ℝ) - 0) = 0 := by
      rw [sub_zero, radiansFn_zero]
    have h2 : radiansFn ((9:ℝ)/20 - 0) = radiansFn (9/20) := by norm_num
    have h3 : Real.sin (radiansFn ((0:ℝ) - 0) / 2) = 0 := by
      rw [h1, zero_div, Real.sin_zero]
    have h4 : radiansFn ((9:ℝ)/20) / 2 = π / 800 := by
      unfold radiansFn; ring
    have hb1 : (0:ℝ) ≤ π / 800 := by positivity
    have hb2 : π / 800 ≤ π / 2 := by linarith
    have hsq : Real.sqrt (Real.sin (radiansFn ((9:ℝ)/20 - 0) / 2) ^ 2 +
        Real.cos (radiansFn 0) * Real.cos (radiansFn (9/20)) *
          Real.sin (radiansFn ((0:ℝ) - 0) / 2) ^ 2) = Real.sin (π / 800) := by
      rw [h3, h2, h4, show Real.cos (radiansFn 0) * Real.cos (radiansFn
        ((9:ℝ)/20)) * (0:ℝ) ^ 2 = 0 by ring, add_zero]
      exact Real.sqrt_sq (Real.sin_nonneg_of_nonneg_of_le_pi hb1 (by linarith))
    rw [hsq, Real.arcsin_sin (by linarith) hb2]
    nlinarith
  · show [uniformDensity (0, 0) 100 2 ((9:ℝ)/20, 0)] = [0]
    have hrw : uniformDensity (0, 0) 100 2 ((9:ℝ)/20, 0) =
        if haversine (radiansFn 0) (radiansFn 0) (radiansFn 0)
          (radiansFn (9/20)) false < 100 then 2 else 0 := rfl
    have hdist : haversine (radiansFn 0) (radiansFn 0) (radiansFn 0)
        (radiansFn (9/20)) false =
        (radiansFn (radiansFn (9/20)) - radiansFn (radiansFn 0)) *
          (6371 * 1000) := by
      rw [haversine_false_eq]
      apply haversine_same_lon
      · rw [radiansFn_zero, radiansFn_zero]
        unfold radiansFn
        nlinarith [Real.pi_pos]
      · rw [radiansFn_zero, radiansFn_zero]
        unfold radiansFn
        nlinarith
    have hval : (radiansFn (radiansFn ((9:ℝ)/20)) - radiansFn (radiansFn 0)) *
        (6371 * 1000) = π ^ 2 * (6371000 / 72000) := by
      rw [radiansFn_zero, radiansFn_zero]
      unfold radiansFn
      ring
    have hge : ¬ (haversine (radiansFn 0) (radiansFn 0) (radiansFn 0)
        (radiansFn ((9:ℝ)/20)) false < 100) := by
      rw [hdist, hval]
      push_neg
      nlinarith
    rw [hrw, if_neg hge]

/-! ### C8 : quadkey round trip.  Numeric bounds used by the proof. -/

lemma exp_six_ge : (403.42 : ℝ) ≤ Real.exp 6 := by
  have h : Real.exp 6 = Real.exp 1 ^ 6 := by
    rw [show (6 : ℝ) = ((6 : ℕ) : ℝ) * 1 by norm_num, Real.exp_nat_mul]
  have h1 : (2.7182818283 : ℝ) ^ 6 ≤ Real.exp 1 ^ 6 :=
    pow_le_pow_left₀ (by norm_num) Real.exp_one_gt_d9.le 6
  have h2 : (403.42 : ℝ) ≤ (2.7182818283 : ℝ) ^ 6 := by norm_num
  rw [h]
  linarith

lemma exp_three_le : Real.exp 3 ≤ 20.085537 := by
  have h : Real.exp 3 = Real.exp 1 ^ 3 := by
    rw [show (3 : ℝ) = ((3 : ℕ) : ℝ) * 1 by norm_num, Real.exp_nat_mul]
  have h1 : Real.exp 1 ^ 3 ≤ (2.7182818286 : ℝ) ^ 3 :=
    pow_le_pow_left₀ (Real.exp_pos 1).le Real.exp_one_lt_d9.le 3
  have h2 : (2.7182818286 : ℝ) ^ 3 ≤ 20.085537 := by norm_num
  rw [h]
  linarith

lemma exp_small_le : Real.exp 0.1412093 ≤ 1.1516694 := by
  have h := Real.exp_bound' (x := 0.1412093) (by norm_num) (by norm_num)
    (n := 4) (by norm_num)
  have h2 : (∑ m ∈ Finset.range 4, (0.1412093 : ℝ) ^ m / m.factorial) +
      (0.1412093 : ℝ) ^ 4 * (4 + 1) / (Nat.factorial 4 * 4) ≤ 1.1516694 := by
    simp only [Finset.sum_range_succ, Finset.sum_range_zero]
    norm_num [Nat.factorial]
  linarith

lemma exp_small_ge : (1.326 : ℝ) ≤ Real.exp 0.282417 := by
  have h := Real.sum_le_exp_of_nonneg (x := (0.282417 : ℝ)) (by norm_num) 4
  have h2 : (1.326 : ℝ) ≤ ∑ m ∈ Finset.range 4, (0.282417 : ℝ) ^ m / m.factorial := by
    simp only [Finset.sum_range_succ, Finset.sum_range_zero]
    norm_num [Nat.factorial]
  linarith

/-- Upper bound on `exp(π·8191/8192)`, the largest second-pass Mercator
argument that occurs for tile rows `1 .. 2^14 - 1`. -/
lemma exp_pi_frac_le : Real.exp (π * 8191 / 8192) ≤ 23.132 := by
  have hpi := Real.pi_lt_d20
  have h1 : π * 8191 / 8192 ≤ 3.1412093 := by linarith
  have h2 : Real.exp (π * 8191 / 8192) ≤ Real.exp 3.1412093 :=
    Real.exp_le_exp.mpr h1
  have h3 : Real.exp (3.1412093 : ℝ) = Real.exp 3 * Real.exp 0.1412093 := by
    rw [← Real.exp_add]; norm_num
  have h4 : Real.exp 3 * Real.exp 0.1412093 ≤ 20.085537 * 1.1516694 := by
    apply mul_le_mul exp_three_le exp_small_le (Real.exp_pos _).le
    norm_num
  have h5 : (20.085537 : ℝ) * 1.1516694 ≤ 23.132 := by norm_num
  rw [h3] at h2
  linarith

/-- Lower bound on `exp(2π - π/4096)`, the largest admissible Mercator
vertical for tile rows `≥ 1`. -/
lemma exp_two_pi_frac_ge : (534.9 : ℝ) ≤ Real.exp (2 * π - π / 4096) := by
  have hpi := Real.pi_gt_d20
  have hpi2 := Real.pi_lt_d20
  have h1 : (6.282417 : ℝ) ≤ 2 * π - π / 4096 := by linarith
  have h2 : Real.exp (6.282417 : ℝ) ≤ Real.exp (2 * π - π / 4096) :=
    Real.exp_le_exp.mpr h1
  have h3 : Real.exp (6.282417 : ℝ) = Real.exp 6 * Real.exp 0.282417 := by
    rw [← Real.exp_add]; norm_num
  have h4 : (403.42 : ℝ) * 1.326 ≤ Real.exp 6 * Real.exp 0.282417 :=
    mul_le_mul exp_six_ge exp_small_ge (by norm_num) (Real.exp_pos _).le
  have h5 : (534.9 : ℝ) ≤ (403.42 : ℝ) * 1.326 := by norm_num
  rw [h3] at h2
  linarith

/-- The tangent of `s₀ = (90 - 85.05112878)·π/360` is small enough. -/
lemma tan_s0_le : Real.tan (4.94887122 / 360 * π) ≤ 0.0432275 := by
  have hpi := Real.pi_gt_d20
  have hpi2 := Real.pi_lt_d20
  have hs0pos : (0 : ℝ) < 4.94887122 / 360 * π := by positivity
  have hs0hi : (4.94887122 : ℝ) / 360 * π ≤ 0.04318705 := by linarith
  have hsin : Real.sin (4.94887122 / 360 * π) ≤ 0.04318705 :=
    le_trans (Real.sin_lt hs0pos).le hs0hi
  have hcos : (0.9990674 : ℝ) ≤ Real.cos (4.94887122 / 360 * π) := by
    have h := Real.one_sub_sq_div_two_le_cos (x := 4.94887122 / 360 * π)
    nlinarith
  rw [Real.tan_eq_sin_div_cos]
  have hdiv : Real.sin (4.94887122 / 360 * π) / Real.cos (4.94887122 / 360 * π) ≤
      0.04318705 / 0.9990674 :=
    div_le_div₀ (by norm_num) hsin (by norm_num) hcos
  have : (0.04318705 : ℝ) / 0.9990674 ≤ 0.0432275 := by norm_num
  linarith

/-- Core inequality: `arctan(exp(-π·8191/8192)) ≥ s₀`, so a second-pass
tile-corner latitude is never clipped. -/
lemma arctan_exp_ge_s0 :
    4.94887122 / 360 * π ≤ Real.arctan (Real.exp (-(π * 8191 / 8192))) := by
  have hpi := Real.pi_gt_d20
  have hpi2 := Real.pi_lt_d20
  have hexp : (0.0432275 : ℝ) ≤ Real.exp (-(π * 8191 / 8192)) := by
    rw [Real.exp_neg]
    have h1 : (0 : ℝ) < Real.exp (π * 8191 / 8192) := Real.exp_pos _
    have h3 : (Real.exp (π * 8191 / 8192))⁻¹ * Real.exp (π * 8191 / 8192) = 1 :=
      inv_mul_cancel₀ (ne_of_gt h1)
    have h4 : (0 : ℝ) < (Real.exp (π * 8191 / 8192))⁻¹ := by positivity
    nlinarith [exp_pi_frac_le]
  have htan : Real.tan (4.94887122 / 360 * π) ≤
      Real.exp (-(π * 8191 / 8192)) :=
    le_trans tan_s0_le hexp
  have hs0b1 : -(π / 2) < 4.94887122 / 360 * π := by nlinarith
  have hs0b2 : 4.94887122 / 360 * π < π / 2 := by nlinarith
  have harc : Real.arctan (Real.tan (4.94887122 / 360 * π)) ≤
      Real.arctan (Real.exp (-(π * 8191 / 8192))) :=
    Real.arctan_strictMono.monotone htan
  rwa [Real.arctan_tan hs0b1 hs0b2] at harc

lemma sin_85_le : Real.sin (85 * π / 180) ≤ 0.9962 := by
  have hpi := Real.pi_gt_d20
  have hpi2 := Real.pi_lt_d20
  have heq : (85 : ℝ) * π / 180 = π / 2 - π / 36 := by ring
  have hcos : Real.sin (85 * π / 180) = Real.cos (π / 36) := by
    rw [heq, Real.sin_pi_div_two_sub]
  have habs : |π / 36| ≤ 1 := by
    rw [abs_of_nonneg (by positivity)]
    linarith
  have hb := Real.cos_bound habs
  have hb2 : Real.cos (π / 36) ≤ 1 - (π / 36) ^ 2 / 2 + |π / 36| ^ 4 * (5 / 96) := by
    have := abs_sub_le_iff.mp hb
    linarith [this.1]
  have ht0 : (0.0872664 : ℝ) ≤ π / 36 := by linarith
  have ht1 : π / 36 ≤ 0.0872665 := by linarith
  have htp : (0 : ℝ) ≤ π / 36 := by positivity
  have h2 : (0.0872664 : ℝ) ^ 2 ≤ (π / 36) ^ 2 := pow_le_pow_left₀ (by norm_num) ht0 2
  have h4 : (π / 36) ^ 4 ≤ (0.0872665 : ℝ) ^ 4 := pow_le_pow_left₀ htp ht1 4
  rw [abs_of_nonneg htp] at hb2
  rw [hcos]
  nlinarith

/-- Bounds on the clipped-latitude sine for `|lat| ≤ 85`. -/
lemma sin_lat_bounds {lat : ℝ} (h : |lat| ≤ 85) :
    Real.sin (lat * π / 180) ≤ 0.9962 ∧ -0.9962 ≤ Real.sin (lat * π / 180) := by
  have hpip := Real.pi_pos
  obtain ⟨hl, hr⟩ := abs_le.mp h
  have hmem1 : lat * π / 180 ∈ Set.Icc (-(π / 2)) (π / 2) := by
    constructor <;> [nlinarith; nlinarith]
  have hmem2 : (85 : ℝ) * π / 180 ∈ Set.Icc (-(π / 2)) (π / 2) := by
    constructor <;> nlinarith
  have hmem3 : (-85 : ℝ) * π / 180 ∈ Set.Icc (-(π / 2)) (π / 2) := by
    constructor <;> nlinarith
  have hle : lat * π / 180 ≤ 85 * π / 180 := by nlinarith
  have hge : (-85 : ℝ) * π / 180 ≤ lat * π / 180 := by nlinarith
  have hup : Real.sin (lat * π / 180) ≤ Real.sin (85 * π / 180) :=
    Real.strictMonoOn_sin.monotoneOn hmem1 hmem2 hle
  have hdn : Real.sin ((-85 : ℝ) * π / 180) ≤ Real.sin (lat * π / 180) :=
    Real.strictMonoOn_sin.monotoneOn hmem3 hmem1 hge
  have hneg : Real.sin ((-85 : ℝ) * π / 180) = -Real.sin (85 * π / 180) := by
    rw [show (-85 : ℝ) * π / 180 = -(85 * π / 180) by ring, Real.sin_neg]
  constructor
  · exact le_trans hup sin_85_le
  · rw [hneg] at hdn
    linarith [sin_85_le]

/-- Sandwich for the Mercator vertical `log((1+s)/(1-s))`. -/
lemma log_ratio_bounds {s : ℝ} (h1 : s ≤ 0.9962) (h2 : -0.9962 ≤ s) :
    Real.log ((1 + s) / (1 - s)) ≤ 2 * π - π / 4096 ∧
    -(2 * π) < Real.log ((1 + s) / (1 - s)) := by
  have hnum : (0 : ℝ) < 1 + s := by linarith
  have hden : (0 : ℝ) < 1 - s := by linarith
  have hpos : (0 : ℝ) < (1 + s) / (1 - s) := div_pos hnum hden
  constructor
  · rw [Real.log_le_iff_le_exp hpos, div_le_iff₀ hden]
    have hE := exp_two_pi_frac_ge
    nlinarith [mul_nonneg (by linarith : (0:ℝ) ≤ Real.exp (2 * π - π / 4096)
      - 534.9) (by linarith : (0:ℝ) ≤ 1 - s)]
  · rw [Real.lt_log_iff_exp_lt hpos]
    have hmono : Real.exp (2 * π - π / 4096) ≤ Real.exp (2 * π) := by
      apply Real.exp_le_exp.mpr
      have := Real.pi_pos
      linarith
    have hE : (534.9 : ℝ) ≤ Real.exp (2 * π) := le_trans exp_two_pi_frac_ge hmono
    have hrlow : (0.0038 : ℝ) / 1.9962 ≤ (1 + s) / (1 - s) := by
      rw [div_le_div_iff₀ (by norm_num) hden]
      linarith
    have hexpneg : Real.exp (-(2 * π)) < (0.0038 : ℝ) / 1.9962 := by
      rw [Real.exp_neg]
      have hp1 : (0 : ℝ) < Real.exp (2 * π) := Real.exp_pos _
      have hp3 : (Real.exp (2 * π))⁻¹ * Real.exp (2 * π) = 1 :=
        inv_mul_cancel₀ (ne_of_gt hp1)
      have hp4 : (0 : ℝ) < (Real.exp (2 * π))⁻¹ := by positivity
      nlinarith
    linarith

lemma clipLat_eq_self {lat : ℝ} (h1 : -85.05112878 ≤ lat)
    (h2 : lat ≤ 85.05112878) : clipLat lat = lat := by
  unfold clipLat
  rw [if_neg (by linarith), if_neg (by linarith)]

lemma pixelY_eq {lat : ℝ} (h : clipLat lat = lat) :
    pixelY lat = (0.5 - Real.log ((1 + Real.sin (lat * π / 180)) /
      (1 - Real.sin (lat * π / 180))) / (4 * π)) * 256 * 2 ^ 14 := by
  unfold pixelY
  rw [h]

/-- For `|lat| ≤ 85` the tile row lies strictly inside `[1, 2^14 - 1]`. -/
lemma tileY_range {lat : ℝ} (h : |lat| ≤ 85) :
    1 ≤ tileY lat ∧ tileY lat ≤ 16383 := by
  have hpip := Real.pi_pos
  obtain ⟨hl, hr⟩ := abs_le.mp h
  have hclip : clipLat lat = lat := clipLat_eq_self (by linarith) (by linarith)
  obtain ⟨hs1, hs2⟩ := sin_lat_bounds h
  obtain ⟨hY1, hY2⟩ := log_ratio_bounds hs1 hs2
  have hpy := pixelY_eq hclip
  have hYd1 : Real.log ((1 + Real.sin (lat * π / 180)) /
      (1 - Real.sin (lat * π / 180))) / (4 * π) ≤ 1 / 2 - 1 / 16384 := by
    rw [div_le_iff₀ (by positivity)]
    nlinarith
  have hYd2 : -(1 / 2 : ℝ) < Real.log ((1 + Real.sin (lat * π / 180)) /
      (1 - Real.sin (lat * π / 180))) / (4 * π) := by
    rw [lt_div_iff₀ (by positivity)]
    nlinarith
  constructor
  · unfold tileY
    rw [Int.le_floor]
    rw [hpy]
    push_cast
    nlinarith
  · have hlt : pixelY lat / 256 < 16384 := by
      rw [hpy]
      nlinarith
    have hf : tileY lat < 16384 := by
      unfold tileY
      rw [Int.floor_lt]
      push_cast
      exact hlt
    omega

/-- The second pass recovers the same tile row: for `|lat| ≤ 85`,
`tileY (tileCenterLat lat) = tileY lat`. -/
lemma tileY_roundtrip {lat : ℝ} (h : |lat| ≤ 85) :
    tileY (tileCenterLat lat) = tileY lat := by
  have hpip := Real.pi_pos
  have hpine : π ≠ 0 := ne_of_gt hpip
  obtain ⟨ht1, ht2⟩ := tileY_range h
  -- the clamp is a no-op on the corner pixel
  have hclamp : clampPix (tileY lat * 256) = tileY lat * 256 := by
    unfold clampPix
    rw [if_neg (by omega), if_neg (by norm_num; omega)]
  -- the corner vertical coordinate
  have hyc : (0.5 : ℝ) - ((clampPix (tileY lat * 256) : ℤ) : ℝ) / (256 * 2 ^ 14) =
      0.5 - ((tileY lat : ℝ) * 256) / (256 * 2 ^ 14) := by
    rw [hclamp]
    push_cast
    ring_nf
  have hcb1 : ((tileY lat : ℝ)) ≤ 16383 := by exact_mod_cast ht2
  have hcb2 : (1 : ℝ) ≤ ((tileY lat : ℝ)) := by exact_mod_cast ht1
  set yc : ℝ := 0.5 - ((tileY lat : ℝ) * 256) / (256 * 2 ^ 14) with hycdef
  have hycb1 : yc ≤ 8191 / 16384 := by
    rw [hycdef, show ((256:ℝ) * 2 ^ 14) = 4194304 by norm_num]
    linarith
  have hycb2 : -(8191 / 16384 : ℝ) ≤ yc := by
    rw [hycdef, show ((256:ℝ) * 2 ^ 14) = 4194304 by norm_num]
    linarith
  set u : ℝ := Real.exp (-yc * 2 * π) with hudef
  have hu0 : 0 < u := Real.exp_pos _
  have hub1 : Real.exp (-(π * 8191 / 8192)) ≤ u := by
    rw [hudef]
    apply Real.exp_le_exp.mpr
    nlinarith
  have hub2 : u ≤ Real.exp (π * 8191 / 8192) := by
    rw [hudef]
    apply Real.exp_le_exp.mpr
    nlinarith
  -- arctan bounds keep the corner latitude inside the clip band
  have harc1 : 4.94887122 / 360 * π ≤ Real.arctan u :=
    le_trans arctan_exp_ge_s0 (Real.arctan_strictMono.monotone hub1)
  have hinvrw : Real.arctan (Real.exp (π * 8191 / 8192)) =
      π / 2 - Real.arctan (Real.exp (-(π * 8191 / 8192))) := by
    rw [show Real.exp (π * 8191 / 8192) =
      (Real.exp (-(π * 8191 / 8192)))⁻¹ by rw [← Real.exp_neg, neg_neg]]
    exact Real.arctan_inv_of_pos (Real.exp_pos _)
  have harc2 : Real.arctan u ≤ π / 2 - 4.94887122 / 360 * π := by
    have := Real.arctan_strictMono.monotone hub2
    rw [hinvrw] at this
    linarith [arctan_exp_ge_s0]
  -- the corner latitude and its clip
  have hlat1 : tileCenterLat lat = 90 - 360 * Real.arctan u / π := by
    unfold tileCenterLat
    rw [hyc]
  have hl1b1 : tileCenterLat lat ≤ 85.05112878 := by
    rw [hlat1]
    have h360 : (4.94887122 : ℝ) ≤ 360 * Real.arctan u / π := by
      rw [le_div_iff₀ hpip]
      nlinarith
    linarith
  have hl1b2 : -85.05112878 ≤ tileCenterLat lat := by
    rw [hlat1]
    have h360 : 360 * Real.arctan u / π ≤ 175.05112878 := by
      rw [div_le_iff₀ hpip]
      nlinarith
    linarith
  have hclip1 : clipLat (tileCenterLat lat) = tileCenterLat lat :=
    clipLat_eq_self hl1b2 hl1b1
  -- the second-pass sine is (1-u²)/(1+u²)
  have harg : tileCenterLat lat * π / 180 = π / 2 - 2 * Real.arctan u := by
    rw [hlat1]
    field_simp
    ring
  have hu2 : (0 : ℝ) < 1 + u ^ 2 := by positivity
  have hs1 : Real.sin (tileCenterLat lat * π / 180) = (1 - u ^ 2) / (1 + u ^ 2) := by
    rw [harg, Real.sin_pi_div_two_sub, Real.cos_two_mul, Real.cos_arctan]
    rw [div_pow, one_pow, Real.sq_sqrt (by positivity : (0:ℝ) ≤ 1 + u ^ 2)]
    field_simp
    ring
  have hlogu : Real.log u = -yc * 2 * π := by rw [hudef]; exact Real.log_exp _
  have hratio : (1 + Real.sin (tileCenterLat lat * π / 180)) /
      (1 - Real.sin (tileCenterLat lat * π / 180)) = (u ^ 2)⁻¹ := by
    have hune : u ≠ 0 := ne_of_gt hu0
    have h1u : (1 : ℝ) + u ^ 2 ≠ 0 := ne_of_gt hu2
    have hstep : ((2 : ℝ) / (1 + u ^ 2)) / (2 * u ^ 2 / (1 + u ^ 2)) = (u ^ 2)⁻¹ := by
      rw [div_div_div_eq, inv_eq_one_div, div_eq_div_iff (by positivity) (by positivity)]
      ring
    rw [hs1,
      show 1 + (1 - u ^ 2) / (1 + u ^ 2) = 2 / (1 + u ^ 2) by field_simp; ring,
      show 1 - (1 - u ^ 2) / (1 + u ^ 2) = 2 * u ^ 2 / (1 + u ^ 2) by
        field_simp; ring]
    exact hstep
  have hlog2 : Real.log ((1 + Real.sin (tileCenterLat lat * π / 180)) /
      (1 - Real.sin (tileCenterLat lat * π / 180))) = 4 * π * yc := by
    rw [hratio, Real.log_inv, Real.log_pow, hlogu]
    push_cast
    ring
  have hpy2 : pixelY (tileCenterLat lat) = (tileY lat : ℝ) * 256 := by
    rw [pixelY_eq hclip1, hlog2]
    have h4 : (4 : ℝ) * π * yc / (4 * π) = yc := by
      field_simp
    rw [h4, hycdef]
    field_simp
    ring
  show ⌊pixelY (tileCenterLat lat) / 256⌋ = tileY lat
  rw [hpy2, show ((tileY lat : ℝ) * 256) / 256 = ((tileY lat : ℝ)) by ring]
  exact Int.floor_intCast _

lemma tileX_range {lon : ℝ} (h1 : -180 ≤ lon) (h2 : lon < 180) :
    0 ≤ tileX lon ∧ tileX lon ≤ 16383 := by
  constructor
  · unfold tileX
    rw [Int.le_floor]
    unfold pixelX
    push_cast
    nlinarith
  · have hlt : pixelX lon / 256 < 16384 := by
      unfold pixelX
      nlinarith
    have hf : tileX lon < 16384 := by
      unfold tileX
      rw [Int.floor_lt]
      push_cast
      exact hlt
    omega

/-- The second pass recovers the same tile column for `-180 ≤ lon < 180`. -/
lemma tileX_roundtrip {lon : ℝ} (h1 : -180 ≤ lon) (h2 : lon < 180) :
    tileX (tileCenterLon lon) = tileX lon := by
  obtain ⟨ht1, ht2⟩ := tileX_range h1 h2
  have hclamp : clampPix (tileX lon * 256) = tileX lon * 256 := by
    unfold clampPix
    rw [if_neg (by omega), if_neg (by norm_num; omega)]
  have hlon1 : tileCenterLon lon =
      360 * (((tileX lon : ℝ) * 256) / (256 * 2 ^ 14) - 0.5) := by
    unfold tileCenterLon
    rw [hclamp]
    push_cast
    ring_nf
  have hpx : pixelX (tileCenterLon lon) = (tileX lon : ℝ) * 256 := by
    rw [hlon1]
    unfold pixelX
    field_simp
    ring
  show ⌊pixelX (tileCenterLon lon) / 256⌋ = tileX lon
  rw [hpx, show ((tileX lon : ℝ) * 256) / 256 = ((tileX lon : ℝ)) by ring]
  exact Int.floor_intCast _

/-- C8 (amended): for every `(lat, lon)` with `|lat| ≤ 85` and
`-180 ≤ lon < 180`, re-encoding the tile-corner coordinates returned by
`extract_quad_keys` yields the same quadkey.  (The source's clip constant
85.05112878 overshoots the exact Web-Mercator limit `arctan(sinh π)`, and
longitudes `≥ 180` overflow the tile column; both boundary behaviours break
the round trip, see `C8_counterexample`.) -/
theorem C8_quadkey_round_trip (lat lon : ℝ) (hlat : |lat| ≤ 85)
    (hlo1 : -180 ≤ lon) (hlo2 : lon < 180) :
    (extract_quad_keys (extract_quad_keys lat lon).1
      (extract_quad_keys lat lon).2.1).2.2 = (extract_quad_keys lat lon).2.2 := by
  show tileXY_to_quadkey (tileX (tileCenterLon lon)).toNat
      (tileY (tileCenterLat lat)).toNat 14 =
    tileXY_to_quadkey (tileX lon).toNat (tileY lat).toNat 14
  rw [tileX_roundtrip hlo1 hlo2, tileY_roundtrip hlat]

/-- Witness for C8 (amended) at `(lat, lon) = (0, 0)`. -/
theorem C8_witness :
    |(0 : ℝ)| ≤ 85 ∧
    (extract_quad_keys (extract_quad_keys 0 0).1
      (extract_quad_keys 0 0).2.1).2.2 = (extract_quad_keys 0 0).2.2 :=
  ⟨by norm_num, C8_quadkey_round_trip 0 0 (by norm_num) (by norm_num) (by norm_num)⟩

/-- C8 counterexample: at `(lat, lon) = (0, 180)` the round trip fails.
`pixelX 180 = 256 * 2^14` puts the point in tile column `2^14 = 16384`, one
past the last valid column; the tile-corner clamp pulls the returned
longitude back inside the map, and re-encoding it lands in column 16383,
so the second quadkey differs from the first. -/
theorem C8_counterexample :
    (extract_quad_keys (extract_quad_keys 0 180).1
      (extract_quad_keys 0 180).2.1).2.2 ≠ (extract_quad_keys 0 180).2.2 := by
  have htX : tileX 180 = 16384 := by
    have h : pixelX 180 / 256 = ((16384 : ℤ) : ℝ) := by unfold pixelX; norm_num
    unfold tileX
    rw [h, Int.floor_intCast]
  have hclip : clipLat (0 : ℝ) = 0 := clipLat_eq_self (by norm_num) (by norm_num)
  have htY : tileY 0 = 8192 := by
    have h : pixelY 0 / 256 = ((8192 : ℤ) : ℝ) := by
      rw [pixelY_eq hclip, show (0 : ℝ) * π / 180 = 0 by ring, Real.sin_zero]
      norm_num
    unfold tileY
    rw [h, Int.floor_intCast]
  have hlat2 : tileCenterLat 0 = 0 := by
    have hcl : clampPix (8192 * 256) = 8192 * 256 := by unfold clampPix; norm_num
    simp only [tileCenterLat]
    rw [htY, hcl]
    have harg : -((0.5 : ℝ) - ((8192 * 256 : ℤ) : ℝ) / (256 * 2 ^ 14)) * 2 * π
        = 0 := by
      rw [show (0.5 : ℝ) - ((8192 * 256 : ℤ) : ℝ) / (256 * 2 ^ 14) = 0 by
        push_cast; norm_num]
      ring
    rw [harg, Real.exp_zero, Real.arctan_one]
    field_simp
    ring
  have hlon2 : tileCenterLon 180 = 360 * ((4194303 : ℝ) / 4194304 - 0.5) := by
    have hcl : clampPix (16384 * 256) = 4194303 := by unfold clampPix; norm_num
    simp only [tileCenterLon]
    rw [htX, hcl]
    push_cast
    norm_num
  have htX2 : tileX (tileCenterLon 180) = 16383 := by
    have h : pixelX (tileCenterLon 180) / 256 = (4194303 : ℝ) / 256 := by
      rw [hlon2]
      unfold pixelX
      norm_num
    unfold tileX
    rw [h, Int.floor_eq_iff]
    constructor <;> norm_num
  have htY2 : tileY (tileCenterLat 0) = 8192 := by rw [hlat2]; exact htY
  show tileXY_to_quadkey (tileX (tileCenterLon 180)).toNat
      (tileY (tileCenterLat 0)).toNat 14 ≠
    tileXY_to_quadkey (tileX 180).toNat (tileY 0).toNat 14
  rw [htX2, htY2, htX, htY]
  decide
